import Mathlib

/-!
Verification of the LOG-file filtering utility (`logfilter_v2.py`).

Strings are modelled as `List Char` (`Str` below).  Python's `re` usage in the
source is limited to literal, case-insensitive matching, word boundaries and a
handful of fixed patterns; each of those is embedded directly as an executable
function on `List Char`, following the source line by line.
-/

/-- Strings of the modelled program. -/
abbrev Str := List Char

/-- Lower-case a string, character by character (Python `str.lower` on the
character sets exercised here). -/
def lowerL (s : Str) : Str := s.map Char.toLower

/-- Upper-case a string, character by character (Python `str.upper`). -/
def upperL (s : Str) : Str := s.map Char.toUpper

/-- Whitespace predicate used by Python `str.strip()` (space, tab, CR, LF). -/
def isSpaceCh (c : Char) : Bool := c.isWhitespace

/-- Python `str.strip()`: drop surrounding whitespace. -/
def trimL (s : Str) : Str :=
  ((s.dropWhile isSpaceCh).reverse.dropWhile isSpaceCh).reverse

/-- Boolean "starts with" on lists. -/
def startsWithB : Str → Str → Bool
  | [], _ => true
  | _ :: _, [] => false
  | a :: as, b :: bs => a = b && startsWithB as bs

/-- Boolean "ends with" on lists (Python `str.endswith`). -/
def endsWithB (suf s : Str) : Bool := startsWithB suf.reverse s.reverse

/-- Boolean substring test: `hasSub s p` is Python `p in s`. -/
def hasSub (s p : Str) : Bool :=
  match s with
  | [] => p.isEmpty
  | _ :: rest => startsWithB p s || hasSub rest p

/-- Case-insensitive equality of characters (ASCII-adequate model of
`re.IGNORECASE` literal matching). -/
def lowEq (a b : Char) : Bool := a.toLower = b.toLower

/-- Case-insensitive "starts with". -/
def ciStarts : Str → Str → Bool
  | [], _ => true
  | _ :: _, [] => false
  | a :: as, b :: bs => lowEq a b && ciStarts as bs

/-- The word-character class of `re` (`\w`, ASCII range as exercised here). -/
def isWordChar (c : Char) : Bool := c.isAlphanum || c = '_'

/-- Word-character test lifted to an optional character; `none` stands for the
edge of the subject string, which is a non-word position. -/
def wordOpt : Option Char → Bool
  | none => false
  | some c => isWordChar c

/-- Python `str.replace(c, r)` for a single-character needle: each occurrence
of `c` is replaced by `r` in one left-to-right pass (replacements are not
rescanned). -/
def pyReplace1 (c : Char) (r : Str) (s : Str) : Str :=
  s.foldr (fun ch acc => if ch = c then r ++ acc else ch :: acc) []

/-- The HTML-escaping expression of `highlight_text`:
`result.replace('&', '&amp;').replace('<', '&lt;').replace('>', '&gt;')`. -/
def escapeHtml (s : Str) : Str :=
  pyReplace1 '>' (("&gt;").toList)
    (pyReplace1 '<' (("&lt;").toList)
      (pyReplace1 '&' (("&amp;").toList) s))

/-- Base name of a path: the part after the last `/` (`os.path.basename`). -/
def basenameOf (p : Str) : Str :=
  p.foldl (fun acc c => if c = '/' then [] else acc ++ [c]) []

/-- One step of `re.sub` scanning for a case-insensitive literal `w = wc :: wrest`,
optionally surrounded by `\b` word boundaries (`bnd`), wrapping each match with
`wrap` and continuing after it.  `prev` is the character just before the current
scan position (used by the boundary test), `none` at the start of the subject. -/
def subCIGo (wc : Char) (wrest : Str) (bnd : Bool) (wrap : Str → Str) :
    Nat → Option Char → Str → Str
  | 0, _, _ => []
  | _ + 1, _, [] => []
  | fuel + 1, prev, c :: rest =>
    let w := wc :: wrest
    let n := w.length
    let s := c :: rest
    let fits := ciStarts w s
    let startOk := xor (wordOpt prev) (isWordChar c)
    let endOk := xor (wordOpt ((s.take n).getLast?)) (wordOpt ((s.drop n).head?))
    if fits && (!bnd || (startOk && endOk)) then
      wrap (s.take n)
        ++ subCIGo wc wrest bnd wrap fuel ((s.take n).getLast?) (rest.drop wrest.length)
    else
      c :: subCIGo wc wrest bnd wrap fuel (some c) rest

/-- `re.sub` for the patterns built by `highlight_text`: a case-insensitive
literal `w`, with `\b` boundaries when `bnd` is set, each match replaced by
`wrap` applied to the matched text (`\g<0>`).  An empty term is a no-op (never
produced by the source's highlight maps).  The fuel starts at the subject
length; every step consumes at least one subject character, so it never runs
out before the subject does. -/
def subCI (w : Str) (bnd : Bool) (wrap : Str → Str) (s : Str) : Str :=
  match w with
  | [] => s
  | wc :: wrest => subCIGo wc wrest bnd wrap s.length none s

/-- `sorted(highlight_words.items(), key=lambda x: len(x[0]), reverse=True)`:
stable sort of the highlight items, longest term first. -/
def insLenDesc (x : Str × Str) : List (Str × Str) → List (Str × Str)
  | [] => [x]
  | y :: ys => if y.1.length ≤ x.1.length then x :: y :: ys else y :: insLenDesc x ys

/-- Stable longest-first ordering of highlight items (Python `sorted` with
`key=len`, `reverse=True`). -/
def sortLenDesc : List (Str × Str) → List (Str × Str)
  | [] => []
  | x :: xs => insLenDesc x (sortLenDesc xs)

/-- ANSI reset code (`Colors.RESET`). -/
def ansiReset : Str := ("\x1b[0m").toList

/-- `Colors.RED`. -/
def ansiRed : Str := ("\x1b[91m").toList

/-- `Colors.GREEN`. -/
def ansiGreen : Str := ("\x1b[92m").toList

/-- CSS class selection of `highlight_text` for a highlight term. -/
def cssClassFor (w : Str) : Str :=
  if lowerL w = ("match").toList ∧ ¬ w.contains ' ' then ("match").toList
  else if lowerL w = ("mismatch").toList then ("mismatch").toList
  else if hasSub (lowerL w) (("configuration").toList) then ("configuration").toList
  else ("highlight").toList

/-- Word-boundary decision of `highlight_text`:
`word.lower() in ["match", "mismatch"] and " " not in word`. -/
def useBoundary (w : Str) : Bool :=
  (lowerL w = ("match").toList || lowerL w = ("mismatch").toList) && !(w.contains ' ')

/-- The HTML replacement of `highlight_text`:
`<span class="{css_class}">\g<0></span>`. -/
def wrapSpan (css : Str) (m : Str) : Str :=
  ("<span class=\"").toList ++ css ++ ("\">").toList ++ m ++ ("</span>").toList

/-- The body of the per-term loop of `highlight_text`. -/
def applyTerm (htmlMode : Bool) (res : Str) (item : Str × Str) : Str :=
  let w := item.1
  let bnd := useBoundary w
  if htmlMode then subCI w bnd (wrapSpan (cssClassFor w)) res
  else subCI w bnd (fun m => item.2 ++ m ++ ansiReset) res

/-- `highlight_text(text, highlight_words, html_mode)`.  The highlight map is an
insertion-ordered association list; `none` models Python `None`.  Note the
source escapes HTML metacharacters twice in HTML mode (the duplicated block at
lines 276-282 of `logfilter_v2.py`), which this embedding reproduces. -/
def highlight_text (text : Str) (hw : Option (List (Str × Str))) (htmlMode : Bool) : Str :=
  match hw with
  | none => text
  | some items =>
    if items.isEmpty then text
    else
      let r1 := if htmlMode then escapeHtml text else text
      let r2 := if htmlMode then escapeHtml r1 else r1
      (sortLenDesc items).foldl (applyTerm htmlMode) r2

/-- Decimal digits of a natural number, as characters. -/
def natChars (n : Nat) : Str := (Nat.repr n).toList

/-- The per-match line written by `save_results_as_html`:
`'        <span class="file-info">{filename} - Line {line_number}:</span> {html_content}\n'`
with `html_content = highlight_text(content, highlight_words, html_mode=True)`. -/
def result_line_html (filename : Str) (lineNo : Nat) (content : Str)
    (hw : Option (List (Str × Str))) : Str :=
  ("        <span class=\"file-info\">").toList ++ filename ++ (" - Line ").toList
    ++ natChars lineNo ++ (":</span> ").toList
    ++ highlight_text content hw true ++ ("\n").toList

/-- Decimal value of a digit string (the digits have been validated before). -/
def digitsToNat (s : Str) : Nat :=
  s.foldl (fun acc c => acc * 10 + (c.toNat - ('0').toNat)) 0

/-- `expectChar c s`: consume a leading `c`. -/
def expectChar (c : Char) (s : Str) : Option Str :=
  match s with
  | [] => none
  | x :: r => if x = c then some r else none

/-- Consume exactly `n` leading decimal digits (`\d{n}` of `re`). -/
def takeDigits (n : Nat) (s : Str) : Option (Str × Str) :=
  let d := s.take n
  if d.length = n ∧ d.all Char.isDigit then some (d, s.drop n) else none

/-- Match the pattern `_(\d{8})_T\d{6}` (`_DATE_IN_NAME`) at the current
position, returning the captured 8-digit group and the remaining input. -/
def matchOldAt (s : Str) : Option (Str × Str) :=
  (expectChar '_' s).bind fun s1 =>
  (takeDigits 8 s1).bind fun p1 =>
  (expectChar '_' p1.2).bind fun s2 =>
  (expectChar 'T' s2).bind fun s3 =>
  (takeDigits 6 s3).map fun p2 => (p1.1, p2.2)

/-- Match the pattern `(\d{4}-\d{2}-\d{2})_\d{2}_\d{2}_\d{2}`
(`_DATE_FT_IN_NAME`) at the current position, returning the year, month and day
digit groups and the remaining input. -/
def matchFTAt (s : Str) : Option ((Str × Str × Str) × Str) :=
  (takeDigits 4 s).bind fun py =>
  (expectChar '-' py.2).bind fun s1 =>
  (takeDigits 2 s1).bind fun pm =>
  (expectChar '-' pm.2).bind fun s2 =>
  (takeDigits 2 s2).bind fun pd =>
  (expectChar '_' pd.2).bind fun s3 =>
  (takeDigits 2 s3).bind fun p1 =>
  (expectChar '_' p1.2).bind fun s4 =>
  (takeDigits 2 s4).bind fun p2 =>
  (expectChar '_' p2.2).bind fun s5 =>
  (takeDigits 2 s5).map fun p3 => ((py.1, pm.1, pd.1), p3.2)

/-- `re.finditer` driver: try a matcher at every position, left to right,
collecting non-overlapping matches.  `fuel` starts at the subject length; each
successful match of the patterns above consumes at least one character, so the
fuel never runs out before the subject does. -/
def scanPat (f : Str → Option (α × Str)) : Nat → Str → List α
  | 0, _ => []
  | _, [] => []
  | fuel + 1, c :: rest =>
    match f (c :: rest) with
    | some (a, s2) => a :: scanPat f fuel s2
    | none => scanPat f fuel rest

/-- Run a matcher over a whole subject (`re.finditer`). -/
def runScan (f : Str → Option (α × Str)) (s : Str) : List α := scanPat f s.length s

/-- Leap-year rule of the Gregorian calendar (Python `datetime`). -/
def isLeapYear (y : Nat) : Bool := (y % 4 = 0 && y % 100 ≠ 0) || y % 400 = 0

/-- Days in a month (Python `datetime` validation). -/
def daysInMonth (y m : Nat) : Nat :=
  if m = 2 then (if isLeapYear y then 29 else 28)
  else if m = 4 ∨ m = 6 ∨ m = 9 ∨ m = 11 then 30
  else 31

/-- Validity of a calendar date as enforced by `datetime.strptime`. -/
def validYMD (y m d : Nat) : Bool :=
  1 ≤ y && y ≤ 9999 && 1 ≤ m && m ≤ 12 && 1 ≤ d && d ≤ daysInMonth y m

/-- Dates are encoded as `y * 10000 + m * 100 + d`; for valid dates this
encoding is order-preserving.  `date.min` and `date.max` of Python. -/
def dateMinCode : Nat := 10101

/-- Encoding of Python `date.max` (9999-12-31). -/
def dateMaxCode : Nat := 99991231

/-- `datetime.strptime(g, "%Y%m%d").date()` on an 8-digit group, `none` when the
date is invalid (the source swallows the exception and skips the group). -/
def dateFromD8 (g : Str) : Option Nat :=
  let y := digitsToNat (g.take 4)
  let m := digitsToNat ((g.drop 4).take 2)
  let d := digitsToNat (g.drop 6)
  if validYMD y m d then some (y * 10000 + m * 100 + d) else none

/-- `datetime.strptime(g, "%Y-%m-%d").date()` on the FT groups. -/
def dateFromFT (g : Str × Str × Str) : Option Nat :=
  let y := digitsToNat g.1
  let m := digitsToNat g.2.1
  let d := digitsToNat g.2.2
  if validYMD y m d then some (y * 10000 + m * 100 + d) else none

/-- Both date patterns applied to one name segment, old pattern first
(the two `finditer` loops of `_dates_from_filename`). -/
def datesInSegment (s : Str) : List Nat :=
  (runScan matchOldAt s).filterMap dateFromD8
    ++ (runScan matchFTAt s).filterMap dateFromFT

/-- Split a path on `/` and drop empty segments (`Path(path).parts`, modulo the
root segment, which contains no digits and can match neither date pattern). -/
def pathParts (p : Str) : List Str :=
  (p.foldr
    (fun c acc =>
      if c = '/' then [] :: acc
      else match acc with
        | [] => [[c]]
        | h :: t => (c :: h) :: t)
    [[]]).filter (fun seg => ¬ seg.isEmpty)

/-- `_dates_from_filename`: extract dates from the base name; if none are found
there, from every path segment. -/
def _dates_from_filename (path : Str) : List Nat :=
  let fromBase := datesInSegment (basenameOf path)
  if fromBase.isEmpty then (pathParts path).flatMap datesInSegment else fromBase

/-- `_file_date_window`: the date window of a file.  `mtime` models
`os.path.getmtime` (already truncated to a date, `none` when unavailable) and
`today` models `datetime.today().date()`. -/
def _file_date_window (path : Str) (mtime : Option Nat) (today : Nat) : Nat × Nat :=
  match _dates_from_filename path with
  | [] =>
    match mtime with
    | some t => (t, t)
    | none => (today, today)
  | d :: ds => (ds.foldl Nat.min d, ds.foldl Nat.max d)

/-- `_overlaps`: inclusive interval overlap. -/
def _overlaps (a b : Nat × Nat) : Bool := !(decide (a.2 < b.1) || decide (b.2 < a.1))

/-- `compile_keyword_patterns`: each keyword becomes a case-insensitive literal
matcher (`re.compile(re.escape(k), re.IGNORECASE)`), embedded as the lower-cased
literal. -/
def compile_keyword_patterns (keywords : List Str) : List Str :=
  keywords.map lowerL

/-- `pattern.search(line)` for a compiled (lower-cased literal) pattern. -/
def patMatches (pat line : Str) : Bool := hasSub (lowerL line) pat

/-- The line loop of `filter_log_file`, carrying the 1-based line number. -/
def filterLinesFrom (srcName : Str) (pats : List Str) : Nat → List Str → List (Str × Nat × Str)
  | _, [] => []
  | i, l :: rest =>
    if pats.any (fun p => patMatches p l) then
      (srcName, i, trimL l) :: filterLinesFrom srcName pats (i + 1) rest
    else filterLinesFrom srcName pats (i + 1) rest

/-- `filter_log_file(file_path, keyword_patterns)`: the file's decoded lines are
given as a list; every line matched by some pattern yields
`(basename(file_path), line_no, line.strip())`. -/
def filter_log_file (filePath : Str) (pats : List Str) (lines : List Str) :
    List (Str × Nat × Str) :=
  filterLinesFrom (basenameOf filePath) pats 1 lines

/-- One immediate subdirectory of the base path, with the relative paths of the
files `os.walk` finds beneath it (in walk order). -/
structure DirEntry where
  name : Str
  files : List Str
deriving Repr, DecidableEq

/-- `{s.strip() for s in serials if s and s.strip()}` (as an ordered list; only
membership and emptiness of the set are ever used). -/
def cleanedSerials (serials : List Str) : List Str :=
  (serials.map trimL).filter (fun s => ¬ s.isEmpty)

/-- `_?(\d+)$` after an alternation prefix: the optional underscore followed by
the captured digit run, which must reach the end of the name. -/
def serialRest (rest : Str) : Option Str :=
  match rest with
  | '_' :: t => if ¬ t.isEmpty ∧ t.all Char.isDigit then some t else none
  | _ => if ¬ rest.isEmpty ∧ rest.all Char.isDigit then some rest else none

/-- Try the alternation branches of the logger-folder pattern in order
(leftmost alternative wins, as in `re`). -/
def serialFolderGo (name : Str) : List Str → Option Str
  | [] => none
  | p :: ps =>
    if ciStarts p name then
      match serialRest (name.drop p.length) with
      | some sn => some sn
      | none => serialFolderGo name ps
    else serialFolderGo name ps

/-- The logger-folder pattern
`^(?:ipelog|ipelog2|ipelogger|logger|ipelog3|arcos2)_?(?P<sn>\d+)$`
(case-insensitive), returning the captured serial number. -/
def matchSerialFolder (name : Str) : Option Str :=
  serialFolderGo name
    [("ipelog").toList, ("ipelog2").toList, ("ipelogger").toList,
     ("logger").toList, ("ipelog3").toList, ("arcos2").toList]

/-- The per-file body of the walk loops in `find_files_by_serial_and_date`:
suffix test, date-window test, and classification as LOG (`true`) or ZIP
(`false`), with the full path. -/
def acceptFile (basePath : Str) (mtime : Str → Option Nat) (today : Nat)
    (wanted : Nat × Nat) (includeZips : Bool) (dirName rel : Str) :
    Option (Bool × Str) :=
  let fname := basenameOf rel
  let u := upperL fname
  let isLog := endsWithB ((".LOG").toList) u
  let isZip := endsWithB ((".ZIP").toList) u
  if isLog || (includeZips && isZip) then
    let fpath := basePath ++ '/' :: dirName ++ '/' :: rel
    if _overlaps (_file_date_window fpath (mtime fpath) today) wanted then
      some (isLog, fpath)
    else none
  else none

/-- Collect the accepted files of the selected subdirectories, in traversal
order. -/
def collectFiles (basePath : Str) (mtime : Str → Option Nat) (today : Nat)
    (wanted : Nat × Nat) (includeZips : Bool) (selected : List DirEntry) :
    List (Bool × Str) :=
  selected.flatMap (fun e =>
    e.files.filterMap (acceptFile basePath mtime today wanted includeZips e.name))

/-- Failure message of an empty identity set
(`ValueError("Minst ett serienummer/fordonsnamn krävs.")`). -/
def emptySerialsMsg : Str := ("Minst ett serienummer/fordonsnamn krävs.").toList

/-- `find_files_by_serial_and_date(base_path, serials, date_from, date_to,
include_zips)`.  The file system is modelled by `entries` — the immediate
subdirectories of the base path together with the files `os.walk` yields inside
each (`none` models a missing base path, i.e. `FileNotFoundError` from
`os.scandir`) — and by the `mtime`/`today` oracles consumed by
`_file_date_window`.  The `ValueError` raised on an empty identity set becomes
`Except.error`. -/
def find_files_by_serial_and_date (basePath : Str) (entries : Option (List DirEntry))
    (mtime : Str → Option Nat) (today : Nat) (serials : List Str)
    (dateFrom dateTo : Option Nat) (includeZips : Bool) :
    Except Str (List Str × List Str) :=
  let serialsSet := cleanedSerials serials
  if serialsSet.isEmpty then Except.error emptySerialsMsg
  else
    let serialsUpper := serialsSet.map upperL
    let wanted := (dateFrom.getD dateMinCode, dateTo.getD dateMaxCode)
    match entries with
    | none => Except.ok ([], [])
    | some es =>
      let hasSerialFolders := es.any (fun e => (matchSerialFolder e.name).isSome)
      let selected :=
        if hasSerialFolders then
          es.filter (fun e =>
            match matchSerialFolder e.name with
            | some sn => decide (sn ∈ serialsSet)
            | none => false)
        else
          es.filter (fun e =>
            ¬ (trimL e.name).isEmpty && decide (upperL (trimL e.name) ∈ serialsUpper))
      let collected := collectFiles basePath mtime today wanted includeZips selected
      Except.ok
        ((collected.filter (fun x => x.1)).map Prod.snd,
         (collected.filter (fun x => !x.1)).map Prod.snd)

/-- The scratch directory during ZIP extraction: an association of relative
file paths to content identifiers (a content identifier names "the bytes of one
particular archive entry", so overwriting is observable). -/
abbrev ScratchFS := List (Str × Nat)

/-- File lookup in the scratch directory (`os.path.exists` / file contents). -/
def fsLookup (fs : ScratchFS) (p : Str) : Option Nat :=
  match fs with
  | [] => none
  | (q, v) :: t => if q = p then some v else fsLookup t p

/-- Write a file: replace the content if the path exists, else create it. -/
def fsSet (fs : ScratchFS) (p : Str) (v : Nat) : ScratchFS :=
  match fs with
  | [] => [(p, v)]
  | (q, u) :: t => if q = p then (p, v) :: t else (q, u) :: fsSet t p v

/-- Remove a path (the source side of `shutil.move`). -/
def fsRemove (fs : ScratchFS) (p : Str) : ScratchFS :=
  match fs with
  | [] => []
  | (q, u) :: t => if q = p then t else (q, u) :: fsRemove t p

/-- `os.path.splitext` on a base name: split off the extension at the last dot
(a leading dot is not an extension). -/
def splitExt (name : Str) : Str × Str :=
  if (name.reverse.takeWhile (fun c => ¬ c = '.')).length = name.length
      ∨ (name.reverse.takeWhile (fun c => ¬ c = '.')).length + 1 = name.length
  then (name, [])
  else
    (name.take (name.length - (name.reverse.takeWhile (fun c => ¬ c = '.')).length - 1),
     name.drop (name.length - (name.reverse.takeWhile (fun c => ¬ c = '.')).length - 1))

/-- The collision-renamed destination
`f"{base}_{os.path.basename(zip_path)}{ext}"` for an entry's base name. -/
def renameDst (zipPath entry : Str) : Str :=
  let dst0 := basenameOf entry
  (splitExt dst0).1 ++ '_' :: basenameOf zipPath ++ (splitExt dst0).2

/-- Extraction of one archive entry (the loop body of
`extract_log_files_from_zip`): `zf.extract` writes the entry at its archive
path (overwriting), then — only when the entry path differs from its base
name — the file is moved to the base name, renamed with the archive's base
name as suffix when the destination already exists.  Returns the new scratch
state and the recorded extracted path. -/
def extractEntry (fs : ScratchFS) (zipPath : Str) (entry : Str) (cid : Nat) :
    ScratchFS × Str :=
  let fs1 := fsSet fs entry cid
  let dst0 := basenameOf entry
  if entry = dst0 then (fs1, dst0)
  else
    let dst := if (fsLookup fs1 dst0).isSome then renameDst zipPath entry else dst0
    (fsSet (fsRemove fs1 entry) dst cid, dst)

/-- `extract_log_files_from_zip(zip_path, temp_dir)`: keep the `.LOG` entries
(case-insensitive), extract each in order.  Entries are `(archive path,
content id)` pairs; returns the final scratch state and the extracted paths. -/
def extract_log_files_from_zip (fs : ScratchFS) (zipPath : Str)
    (entries : List (Str × Nat)) : ScratchFS × List Str :=
  let logs := entries.filter (fun e => endsWithB ((".LOG").toList) (upperL e.1))
  logs.foldl
    (fun acc e =>
      let step := extractEntry acc.1 zipPath e.1 e.2
      (step.1, acc.2 ++ [step.2]))
    (fs, [])

/-- Suffix of `s` after the first occurrence of `pat`
(`s.split(pat, 1)[1]`, used only when `pat` occurs). -/
def afterFirst (pat : Str) : Str → Str
  | [] => []
  | c :: rest =>
    if startsWithB pat (c :: rest) then (c :: rest).drop pat.length
    else afterFirst pat rest

/-- The token class `[^_\\/ \t]` of the configuration-name pattern. -/
def cfgTokenOk (c : Char) : Bool :=
  ¬ (c = '_' ∨ c = '\\' ∨ c = '/' ∨ c = ' ' ∨ c = '\t')

/-- `re.search(r'Configuration file:\s*([^_\\/ \t]+)_', content)`: at each
occurrence of the literal, greedily skip whitespace, take the maximal token
run, and require a following underscore; otherwise continue at the next
position.  (Backtracking inside `\s*`/`+` cannot succeed when this fails,
since the token class excludes the whitespace seen on single log lines.) -/
def cfgNameSearch : Str → Option Str
  | [] => none
  | c :: rest =>
    let s := c :: rest
    let lit := ("Configuration file:").toList
    if startsWithB lit s then
      let afterLit := s.drop lit.length
      let afterWs := afterLit.dropWhile isSpaceCh
      let tok := afterWs.takeWhile cfgTokenOk
      if ¬ tok.isEmpty ∧ (afterWs.drop tok.length).head? = some '_' then some tok
      else cfgNameSearch rest
    else cfgNameSearch rest

/-- `re.search(r'\b([A-Za-z0-9]+)_BEV3', content)`: at each position with a
word boundary before an alphanumeric run, require the literal `_BEV3` right
after the maximal run (shortening the greedy run cannot succeed, since the
next character would again be alphanumeric). `prev` is the preceding
character. -/
def bev3Go (prev : Option Char) : Str → Option Str
  | [] => none
  | c :: rest =>
    let s := c :: rest
    if c.isAlphanum && !(wordOpt prev) then
      let run := s.takeWhile Char.isAlphanum
      if startsWithB (("_BEV3").toList) (s.drop run.length) then some run
      else bev3Go (some c) rest
    else bev3Go (some c) rest

/-- `re.match(r'([A-Za-z0-9]+)_\d{8}_T', base)` (anchored): the maximal leading
alphanumeric run followed by `_`, eight digits, `_`, `T`. -/
def vehNameMatch (base : Str) : Option Str :=
  let run := base.takeWhile Char.isAlphanum
  let rest := base.drop run.length
  let ok :=
    ¬ run.isEmpty ∧
    (expectChar '_' rest).bind (fun r1 =>
      (takeDigits 8 r1).bind (fun p =>
        (expectChar '_' p.2).bind (expectChar 'T'))) ≠ none
  if ok then some run else none

/-- `_vehicle_from_content(filename, content)`: the three-step vehicle-name
heuristic, falling back to `"Unknown"`. -/
def _vehicle_from_content (filename content : Str) : Str :=
  match cfgNameSearch content with
  | some v => v
  | none =>
    match bev3Go none content with
    | some v => v
    | none =>
      match vehNameMatch (basenameOf filename) with
      | some v => v
      | none => ("Unknown").toList

/-- The per-vehicle aggregate of `write_vehicle_summary_html` (`vehicles[k]`). -/
structure VehicleRec where
  nameDisplay : Str
  configs : List Str
  protocols : List Str
  hasMismatch : Bool
  sources : List Str
deriving Repr, DecidableEq

/-- Append an element to a Python-`set`-modelling list if it is new. -/
def addIfNew (x : Str) (l : List Str) : List Str :=
  if x ∈ l then l else l ++ [x]

/-- Dictionary update preserving insertion order: apply `f` at the key if
present, else append `(k, f init)` (`dict.setdefault` then mutation). -/
def updateAssoc (k : Str) (init : VehicleRec) (f : VehicleRec → VehicleRec) :
    List (Str × VehicleRec) → List (Str × VehicleRec)
  | [] => [(k, f init)]
  | (q, v) :: t =>
    if q = k then (q, f v) :: t else (q, v) :: updateAssoc k init f t

/-- Insertion-ordered string-to-string dictionary write
(`file_to_vehicle[filename] = veh`). -/
def strAssocSet (k v : Str) : List (Str × Str) → List (Str × Str)
  | [] => [(k, v)]
  | (q, u) :: t => if q = k then (q, v) :: t else (q, u) :: strAssocSet k v t

/-- Lookup in a string dictionary. -/
def strAssocGet (k : Str) : List (Str × Str) → Option Str
  | [] => none
  | (q, u) :: t => if q = k then some u else strAssocGet k t

/-- First pass of `write_vehicle_summary_html`: the `file -> vehicle` map built
from the `Configuration file:` lines. -/
def fileToVehicle (allLines : List (Str × Nat × Str)) : List (Str × Str) :=
  allLines.foldl
    (fun acc line =>
      let filename := line.1
      let content := line.2.2
      if hasSub content (("Configuration file:").toList) then
        let veh := _vehicle_from_content filename content
        if ¬ veh.isEmpty ∧ veh ≠ ("Unknown").toList then strAssocSet filename veh acc
        else acc
      else acc)
    []

/-- Second pass of `write_vehicle_summary_html`: update the vehicle dictionary
with one matched line. -/
def vehicleStep (f2v : List (Str × Str)) (vehicles : List (Str × VehicleRec))
    (line : Str × Nat × Str) : List (Str × VehicleRec) :=
  let filename := line.1
  let content := line.2.2
  let vehRaw0 := _vehicle_from_content filename content
  let vehRaw :=
    if (vehRaw0.isEmpty ∨ vehRaw0 = ("Unknown").toList) then
      match strAssocGet filename f2v with
      | some v => v
      | none => vehRaw0
    else vehRaw0
  let vehKey0 := lowerL (trimL (if vehRaw.isEmpty then ("Unknown").toList else vehRaw))
  let vehKey := if vehKey0.isEmpty then ("unknown").toList else vehKey0
  let init : VehicleRec := ⟨vehRaw, [], [], false, []⟩
  updateAssoc vehKey init
    (fun v =>
      let v := { v with sources := addIfNew filename v.sources }
      let v :=
        if hasSub content (("Configuration file:").toList) then
          { v with configs :=
              addIfNew (trimL (afterFirst (("Configuration file:").toList) content)) v.configs }
        else v
      if hasSub content (("Protocols:").toList) then
        let part := trimL (afterFirst (("Protocols:").toList) content)
        { v with protocols := v.protocols ++ [part],
                 hasMismatch := v.hasMismatch || hasSub (lowerL part) (("mismatch").toList) }
      else if hasSub content (("CCP: EPK").toList) then
        let part := trimL (afterFirst (("CCP: EPK").toList) content)
        let prot :=
          if part.isEmpty then ("CCP: EPK").toList else ("CCP: EPK ").toList ++ part
        { v with protocols := v.protocols ++ [prot],
                 hasMismatch := v.hasMismatch || hasSub (lowerL prot) (("mismatch").toList) }
      else v)
    vehicles

/-- The vehicle dictionary of `write_vehicle_summary_html`, in insertion
order. -/
def buildVehicles (allLines : List (Str × Nat × Str)) : List (Str × VehicleRec) :=
  allLines.foldl (vehicleStep (fileToVehicle allLines)) []

/-- The sort relation of
`sorted(vehicles.values(), key=lambda d: (not d["has_mismatch"], d["name_display"].lower()))`:
lexicographic on the Python key tuple (`False < True` on the first slot). -/
def vehLe (a b : VehicleRec) : Prop :=
  (!a.hasMismatch) < (!b.hasMismatch)
    ∨ ((!a.hasMismatch) = (!b.hasMismatch) ∧ lowerL a.nameDisplay ≤ lowerL b.nameDisplay)

instance : DecidableRel vehLe := fun a b => by
  unfold vehLe
  infer_instance

/-- The rendering order of the summary: mismatch vehicles first, then
alphabetical on the lower-cased display name (Python `sorted` is stable;
`List.insertionSort` is the matching stable sort). -/
def sorted_vehicles (allLines : List (Str × Nat × Str)) : List VehicleRec :=
  List.insertionSort vehLe ((buildVehicles allLines).map Prod.snd)

/-- The no-data list of `write_vehicle_summary_html`:
`sorted({s for s in serials_all_clean if s.lower() not in with_lower}, key=lambda x: x.lower())`.
The Python `set` deduplicates exact strings only; `List.dedup` models it (up to
iteration order of ties, which the `set` leaves unspecified). -/
def serials_without_logs (serialsAll serialsWithLogs : List Str) : List Str :=
  let allClean := cleanedSerials serialsAll
  let withLower := (cleanedSerials serialsWithLogs).map lowerL
  List.insertionSort (fun a b => lowerL a ≤ lowerL b)
    ((allClean.filter (fun s => decide (lowerL s ∉ withLower))).dedup)

/-- The sample matched line of the specification,
`("V1_log.LOG", 3, "Protocols: X mismatch Y")`. -/
def sampleLine : Str × Nat × Str :=
  (("V1_log.LOG").toList, 3, ("Protocols: X mismatch Y").toList)

/-- The vehicle record the summary builder produces for the sample line: keyed
`"unknown"`, displayed `"Unknown"`, protocol suffix recorded, mismatch flag
set. -/
def sampleRec : VehicleRec :=
  ⟨("Unknown").toList, [], [("X mismatch Y").toList], true, [("V1_log.LOG").toList]⟩

instance : DecidableEq (Except Str (List Str × List Str)) := fun a b =>
  match a, b with
  | .ok x, .ok y => decidable_of_iff (x = y) (by simp)
  | .error x, .error y => decidable_of_iff (x = y) (by simp)
  | .ok _, .error _ => isFalse (by simp)
  | .error _, .ok _ => isFalse (by simp)

/-- C1: evaluation of `highlight_text` in HTML mode at the input `"<"` with a
non-empty highlight map: the duplicated escaping block of the source escapes
the metacharacter twice, producing `&amp;lt;` instead of the single escape
`&lt;` required by the claim. -/
theorem c1_double_escape_eval :
    highlight_text (("<").toList) (some [(("x").toList, ansiRed)]) true
        = ("&amp;lt;").toList
      ∧ highlight_text (("<").toList) (some [(("x").toList, ansiRed)]) true
        ≠ ("&lt;").toList := by
  constructor
  · decide
  · decide

/-- C2: `highlight_text("match and mismatch", {"match": _, "mismatch": _},
html_mode=True)` wraps `mismatch` as one unit with class `mismatch` and the
standalone `match` with class `match`; the `match` inside `mismatch` is not
wrapped.  The second conjunct exhibits the word-boundary matching: occurrences
of the terms inside larger words are left alone. -/
theorem c2_match_mismatch_spans :
    highlight_text (("match and mismatch").toList)
        (some [(("match").toList, ansiGreen), (("mismatch").toList, ansiRed)]) true
      = ("<span class=\"match\">match</span> and <span class=\"mismatch\">mismatch</span>").toList
    ∧ highlight_text (("rematch matches").toList)
        (some [(("match").toList, ansiGreen), (("mismatch").toList, ansiRed)]) true
      = ("rematch matches").toList := by
  constructor
  · decide
  · decide

/-- C10: with a `None` or empty highlight map, `highlight_text` returns its
input unchanged — even in HTML mode, so no metacharacter escaping happens —
and the per-match line of `save_results_as_html` then embeds the raw matched
content verbatim in the document. -/
theorem c10_empty_highlight_identity :
    (∀ (t : Str) (m : Bool), highlight_text t none m = t)
    ∧ (∀ (t : Str) (m : Bool), highlight_text t (some []) m = t)
    ∧ (∀ (f : Str) (n : Nat) (c : Str),
        result_line_html f n c none
          = ("        <span class=\"file-info\">").toList ++ f ++ (" - Line ").toList
              ++ natChars n ++ (":</span> ").toList ++ c ++ ("\n").toList) :=
  ⟨fun _ _ => rfl, fun _ _ => rfl, fun _ _ _ => rfl⟩

theorem startsWithB_iff (p s : Str) : startsWithB p s = true ↔ p <+: s := by
  induction p generalizing s with
  | nil => simp [startsWithB]
  | cons a as ih =>
    cases s with
    | nil => simp [startsWithB]
    | cons b bs =>
      simp only [startsWithB, Bool.and_eq_true, decide_eq_true_eq, ih,
        List.cons_prefix_cons]

theorem hasSub_iff (s p : Str) : hasSub s p = true ↔ p <:+: s := by
  induction s with
  | nil => simp [hasSub, List.isEmpty_iff]
  | cons c rest ih =>
    simp only [hasSub, Bool.or_eq_true, startsWithB_iff, ih, List.infix_cons_iff]

theorem mem_filterLinesFrom (srcName : Str) (pats : List Str) (j : Nat)
    (lines : List Str) (x : Str × Nat × Str) :
    x ∈ filterLinesFrom srcName pats j lines ↔
      ∃ i, ∃ h : i < lines.length,
        pats.any (fun p => patMatches p (lines.get ⟨i, h⟩)) = true
          ∧ x = (srcName, j + i, trimL (lines.get ⟨i, h⟩)) := by
  induction lines generalizing j with
  | nil => simp [filterLinesFrom]
  | cons l rest ih =>
    constructor
    · intro hx
      rw [filterLinesFrom] at hx
      by_cases hm : pats.any (fun p => patMatches p l) = true
      · rw [if_pos hm] at hx
        rcases List.mem_cons.mp hx with rfl | hx2
        · exact ⟨0, Nat.succ_pos _, by simpa using hm, by simp⟩
        · obtain ⟨i, h, hmi, hxe⟩ := (ih (j + 1)).mp hx2
          refine ⟨i + 1, Nat.succ_lt_succ h, by simpa using hmi, ?_⟩
          rw [hxe]
          simp [Nat.add_assoc, Nat.add_comm 1 i]
      · rw [if_neg hm] at hx
        obtain ⟨i, h, hmi, hxe⟩ := (ih (j + 1)).mp hx
        refine ⟨i + 1, Nat.succ_lt_succ h, by simpa using hmi, ?_⟩
        rw [hxe]
        simp [Nat.add_assoc, Nat.add_comm 1 i]
    · rintro ⟨i, h, hmi, rfl⟩
      rw [filterLinesFrom]
      cases i with
      | zero =>
        have hm : pats.any (fun p => patMatches p l) = true := by simpa using hmi
        rw [if_pos hm]
        have he : (srcName, j + 0, trimL ((l :: rest).get ⟨0, h⟩))
            = (srcName, j, trimL l) := by simp
        rw [he]
        exact List.mem_cons_self _ _
      | succ k =>
        have hk : k < rest.length := Nat.lt_of_succ_lt_succ h
        have he : (srcName, j + (k + 1), trimL ((l :: rest).get ⟨k + 1, h⟩))
            = (srcName, j + 1 + k, trimL (rest.get ⟨k, hk⟩)) := by
          simp [Nat.add_assoc, Nat.add_comm 1 k]
        have hmem := (ih (j + 1)).mpr ⟨k, hk, by simpa using hmi, he⟩
        by_cases hm : pats.any (fun p => patMatches p l) = true
        · rw [if_pos hm]
          exact List.mem_cons_of_mem _ hmem
        · rw [if_neg hm]
          exact hmem

theorem compiled_any_iff (kws : List Str) (l : Str) :
    (compile_keyword_patterns kws).any (fun p => patMatches p l) = true ↔
      ∃ k ∈ kws, lowerL k <:+: lowerL l := by
  simp only [compile_keyword_patterns, List.any_eq_true, List.mem_map, patMatches]
  constructor
  · rintro ⟨p, ⟨k, hk, rfl⟩, hp⟩
    exact ⟨k, hk, (hasSub_iff _ _).mp hp⟩
  · rintro ⟨k, hk, hs⟩
    exact ⟨lowerL k, ⟨k, hk, rfl⟩, (hasSub_iff _ _).mpr hs⟩

/-- C6: `filter_log_file` with compiled keyword patterns returns a matched line
for exactly those lines containing some keyword as a case-insensitive literal
substring, carrying the file's base name, the 1-based line number and the
trimmed line; and the concrete `compile(["error"])` example yields exactly one
matched line referencing line 1. -/
theorem c6_scan_characterization :
    (∀ (filePath : Str) (kws : List Str) (lines : List Str) (x : Str × Nat × Str),
      x ∈ filter_log_file filePath (compile_keyword_patterns kws) lines ↔
        ∃ i, ∃ h : i < lines.length,
          (∃ k ∈ kws, lowerL k <:+: lowerL (lines.get ⟨i, h⟩))
            ∧ x = (basenameOf filePath, i + 1, trimL (lines.get ⟨i, h⟩)))
    ∧ filter_log_file (("f.LOG").toList) (compile_keyword_patterns [("error").toList])
        [("Error: disk full").toList, ("all fine").toList]
      = [(("f.LOG").toList, 1, ("Error: disk full").toList)] := by
  constructor
  · intro filePath kws lines x
    rw [filter_log_file, mem_filterLinesFrom]
    constructor
    · rintro ⟨i, h, hmi, rfl⟩
      exact ⟨i, h, (compiled_any_iff _ _).mp hmi, by rw [Nat.add_comm]⟩
    · rintro ⟨i, h, hmi, rfl⟩
      exact ⟨i, h, (compiled_any_iff _ _).mpr hmi, by rw [Nat.add_comm]⟩
  · decide

theorem foldl_min_le_init (l : List Nat) (a : Nat) : l.foldl Nat.min a ≤ a := by
  induction l generalizing a with
  | nil => simp
  | cons x xs ih =>
    calc List.foldl Nat.min (Nat.min a x) xs ≤ Nat.min a x := ih _
    _ ≤ a := Nat.min_le_left _ _

theorem init_le_foldl_max (l : List Nat) (a : Nat) : a ≤ l.foldl Nat.max a := by
  induction l generalizing a with
  | nil => simp
  | cons x xs ih =>
    calc a ≤ Nat.max a x := Nat.le_max_left _ _
    _ ≤ List.foldl Nat.max (Nat.max a x) xs := ih _

/-- C8: `_file_date_window` is total and always returns a window with
`start ≤ end`; when the name holds dates it is their min/max, otherwise it
degenerates to the modification time when available, else to today. -/
theorem c8_file_window_total (p : Str) (mt : Option Nat) (today : Nat) :
    (_file_date_window p mt today).1 ≤ (_file_date_window p mt today).2
    ∧ (_dates_from_filename p = [] →
        _file_date_window p mt today = (mt.getD today, mt.getD today)) := by
  unfold _file_date_window
  cases h : _dates_from_filename p with
  | nil =>
    cases mt <;> simp
  | cons d ds =>
    refine ⟨?_, by simp⟩
    calc (ds.foldl Nat.min d, ds.foldl Nat.max d).1 ≤ d := foldl_min_le_init _ _
    _ ≤ (ds.foldl Nat.min d, ds.foldl Nat.max d).2 := init_le_foldl_max _ _

/-- C8 witness: a path string with no embedded date and no file behind it
falls back to today's date on both ends of the window. -/
theorem c8_file_window_total_witness :
    _file_date_window (("x").toList) none 0 = (0, 0) :=
  (c8_file_window_total (("x").toList) none 0).2 (by decide)

/-- C7: with the vehicle-name layout `base/VEH/VEH_20250101_T120000.LOG` and the
identity set `{"VEH"}`, the locate call for 2025-01-01..2025-01-01 returns the
file among the LOG results, while every call whose `date_from` is 2025-01-02 or
later (for any `date_to`) excludes it. -/
theorem c7_locate_date_filter :
    (find_files_by_serial_and_date (("base").toList)
        (some [⟨("VEH").toList, [("VEH_20250101_T120000.LOG").toList]⟩])
        (fun _ => none) 0 [("VEH").toList] (some 20250101) (some 20250101) true
      = Except.ok ([("base/VEH/VEH_20250101_T120000.LOG").toList], []))
    ∧ (∀ (d : Nat) (dTo : Option Nat), 20250102 ≤ d →
      find_files_by_serial_and_date (("base").toList)
          (some [⟨("VEH").toList, [("VEH_20250101_T120000.LOG").toList]⟩])
          (fun _ => none) 0 [("VEH").toList] (some d) dTo true
        = Except.ok ([], [])) := by
  constructor
  · decide
  · intro d dTo hd
    have hov : ∀ t : Nat, _overlaps (20250101, 20250101) (d, t) = false := by
      intro t
      unfold _overlaps
      have h1 : 20250101 < d := by omega
      simp [h1]
    have hw : _file_date_window (("base/VEH/VEH_20250101_T120000.LOG").toList) none 0
        = (20250101, 20250101) := by decide
    have h1 : (cleanedSerials [("VEH").toList]).isEmpty = false := by decide
    have h2 : matchSerialFolder (("VEH").toList) = none := by decide
    simp only [find_files_by_serial_and_date, h1, Bool.false_eq_true, if_false,
      List.any_cons, List.any_nil, h2, Option.isSome_none, Bool.or_false,
      Bool.false_eq_true, if_false, collectFiles, acceptFile]
    simp only [List.filter, List.flatMap, List.filterMap]
    simp +decide only []
    simp +decide [acceptFile, hw, hov]
    show _overlaps
        (_file_date_window (("base/VEH/VEH_20250101_T120000.LOG").toList) none 0)
        (d, dTo.getD dateMaxCode) = false
    rw [hw]
    exact hov _

/-- C7 witness: the excluded case at `date_from = 2025-01-02`, `date_to`
unbounded. -/
theorem c7_locate_date_filter_witness :
    find_files_by_serial_and_date (("base").toList)
        (some [⟨("VEH").toList, [("VEH_20250101_T120000.LOG").toList]⟩])
        (fun _ => none) 0 [("VEH").toList] (some 20250102) none true
      = Except.ok ([], []) :=
  c7_locate_date_filter.2 20250102 none (by omega)

/-- C9: a locate call whose identity collection has no non-empty trimmed
element fails with the descriptive error whatever the file system looks like
(so before any file-system access); a missing base path with a valid identity
set returns two empty lists non-fatally; and the empty identity set is the only
condition producing a failure. -/
theorem c9_empty_identities_rejected (serials : List Str) (basePath : Str)
    (entries : Option (List DirEntry)) (mtime : Str → Option Nat) (today : Nat)
    (dateFrom dateTo : Option Nat) (includeZips : Bool) :
    ((cleanedSerials serials).isEmpty = true →
      find_files_by_serial_and_date basePath entries mtime today serials
          dateFrom dateTo includeZips
        = Except.error emptySerialsMsg)
    ∧ ((cleanedSerials serials).isEmpty = false →
      find_files_by_serial_and_date basePath none mtime today serials
          dateFrom dateTo includeZips
        = Except.ok ([], []))
    ∧ (∀ r, find_files_by_serial_and_date basePath entries mtime today serials
          dateFrom dateTo includeZips = Except.error r
        ↔ ((cleanedSerials serials).isEmpty = true ∧ r = emptySerialsMsg)) := by
  refine ⟨?_, ?_, ?_⟩
  · intro h
    simp [find_files_by_serial_and_date, h]
  · intro h
    simp [find_files_by_serial_and_date, h]
  · intro r
    cases hC : (cleanedSerials serials).isEmpty with
    | true =>
      simp [find_files_by_serial_and_date, hC, eq_comm]
    | false =>
      cases entries with
      | none => simp [find_files_by_serial_and_date, hC]
      | some es => simp [find_files_by_serial_and_date, hC]

/-- C9 witness: a whitespace-only identity set is rejected with the message
regardless of the (present) file system; a missing base path with identity
`{"A"}` yields two empty lists. -/
theorem c9_empty_identities_rejected_witness :
    find_files_by_serial_and_date (("b").toList) (some []) (fun _ => none) 0
        [(" ").toList] none none true
      = Except.error emptySerialsMsg
    ∧ find_files_by_serial_and_date (("b").toList) none (fun _ => none) 0
        [("A").toList] none none true
      = Except.ok ([], []) :=
  ⟨(c9_empty_identities_rejected [(" ").toList] (("b").toList) (some [])
      (fun _ => none) 0 none none true).1 (by decide),
   (c9_empty_identities_rejected [("A").toList] (("b").toList) (some [])
      (fun _ => none) 0 none none true).2.1 (by decide)⟩

theorem fsLookup_fsSet_self (fs : ScratchFS) (p : Str) (v : Nat) :
    fsLookup (fsSet fs p v) p = some v := by
  induction fs with
  | nil => simp [fsSet, fsLookup]
  | cons h t ih =>
    by_cases hq : h.1 = p
    · simp [fsSet, fsLookup, hq]
    · simp [fsSet, fsLookup, hq, ih]

theorem fsLookup_fsSet_ne (fs : ScratchFS) (p q : Str) (v : Nat) (h : q ≠ p) :
    fsLookup (fsSet fs p v) q = fsLookup fs q := by
  induction fs with
  | nil => simp [fsSet, fsLookup, Ne.symm h]
  | cons hd t ih =>
    by_cases hq : hd.1 = p
    · simp [fsSet, fsLookup, hq, Ne.symm h]
    · simp [fsSet, fsLookup, hq, ih]

theorem fsLookup_fsRemove_ne (fs : ScratchFS) (p q : Str) (h : q ≠ p) :
    fsLookup (fsRemove fs p) q = fsLookup fs q := by
  induction fs with
  | nil => simp [fsRemove, fsLookup]
  | cons hd t ih =>
    by_cases hq : hd.1 = p
    · simp only [fsRemove, hq, if_true]
      have hne : ¬ hd.1 = q := by rw [hq]; exact Ne.symm h
      simp [fsLookup, hne]
    · simp [fsRemove, fsLookup, hq, ih]

theorem slash_not_mem_basenameOf (p : Str) : '/' ∉ basenameOf p := by
  suffices hgen : ∀ acc : Str, '/' ∉ acc →
      '/' ∉ p.foldl (fun acc c => if c = '/' then [] else acc ++ [c]) acc by
    exact hgen [] (by simp)
  induction p with
  | nil => intro acc hacc; simpa using hacc
  | cons c rest ih =>
    intro acc hacc
    simp only [List.foldl_cons]
    by_cases hc : c = '/'
    · rw [if_pos hc]
      exact ih [] (by simp)
    · rw [if_neg hc]
      refine ih (acc ++ [c]) ?_
      intro hm
      rcases List.mem_append.mp hm with h1 | h2
      · exact hacc h1
      · exact hc ((List.mem_singleton.mp h2).symm)

theorem splitExt_fst_subset (name : Str) : (splitExt name).1 ⊆ name := by
  unfold splitExt
  split
  · exact fun _ h => h
  · exact List.take_subset _ _

theorem splitExt_snd_subset (name : Str) : (splitExt name).2 ⊆ name := by
  unfold splitExt
  split
  · simp
  · exact List.drop_subset _ _

theorem renameDst_no_slash (z e : Str) : '/' ∉ renameDst z e := by
  intro hmem
  have hbe := slash_not_mem_basenameOf e
  have hbz := slash_not_mem_basenameOf z
  unfold renameDst at hmem
  rcases List.mem_append.mp hmem with h1 | h2
  · rcases List.mem_append.mp h1 with h3 | h4
    · exact hbe (splitExt_fst_subset _ h3)
    · rcases List.mem_cons.mp h4 with h5 | h6
      · exact absurd h5 (by decide)
      · exact hbz h6
  · exact hbe (splitExt_snd_subset _ h2)

theorem extractEntry_path_no_slash (fs : ScratchFS) (z e : Str) (cid : Nat) :
    '/' ∉ (extractEntry fs z e cid).2 := by
  unfold extractEntry
  by_cases h : e = basenameOf e
  · rw [if_pos h]
    exact slash_not_mem_basenameOf e
  · rw [if_neg h]
    by_cases hc : (fsLookup (fsSet fs e cid) (basenameOf e)).isSome = true
    · show '/' ∉ (if (fsLookup (fsSet fs e cid) (basenameOf e)).isSome = true
          then renameDst z e else basenameOf e)
      rw [if_pos hc]
      exact renameDst_no_slash z e
    · show '/' ∉ (if (fsLookup (fsSet fs e cid) (basenameOf e)).isSome = true
          then renameDst z e else basenameOf e)
      rw [if_neg hc]
      exact slash_not_mem_basenameOf e

/-- C5 counterexample: two archives each holding the root-level entry `a.LOG`.
The first extraction leaves `a.LOG` with the first archive's content; the
second extraction of the other archive overwrites it in place — the entry path
has no directory component, so the collision-rename branch is never reached
and the previously extracted file is lost, contradicting the claim that no
previously extracted file is ever overwritten. -/
theorem c5_root_collision_overwrites :
    extract_log_files_from_zip [] (("z1.zip").toList) [((("a.LOG").toList), 0)]
      = ([((("a.LOG").toList), 0)], [("a.LOG").toList])
    ∧ extract_log_files_from_zip [((("a.LOG").toList), 0)] (("z2.zip").toList)
        [((("a.LOG").toList), 1)]
      = ([((("a.LOG").toList), 1)], [("a.LOG").toList]) := by
  constructor
  · decide
  · decide

/-- C5 (amended): the overwrite-avoiding rename applies exactly to entries with
an archive-internal directory component: for such an entry whose base name
collides with an existing scratch file (and whose renamed destination and full
entry path are fresh), the entry lands under the renamed destination — the base
name suffixed with the archive's own base name — every pre-existing file keeps
its content, and the returned path carries no directory separator.  (Root-level
entries, by contrast, overwrite in place, as the counterexample shows.) -/
theorem c5_internal_collision_renames (fs : ScratchFS) (z e : Str) (cid : Nat)
    (h1 : e ≠ basenameOf e)
    (h2 : (fsLookup fs (basenameOf e)).isSome = true)
    (h3 : fsLookup fs (renameDst z e) = none)
    (h4 : fsLookup fs e = none) :
    (extractEntry fs z e cid).2 = renameDst z e
    ∧ fsLookup (extractEntry fs z e cid).1 (renameDst z e) = some cid
    ∧ (∀ p, fsLookup fs p ≠ none →
        fsLookup (extractEntry fs z e cid).1 p = fsLookup fs p)
    ∧ '/' ∉ (extractEntry fs z e cid).2 := by
  have hset : (fsLookup (fsSet fs e cid) (basenameOf e)).isSome = true := by
    rw [fsLookup_fsSet_ne fs e (basenameOf e) cid (fun hh => h1 hh.symm)]
    exact h2
  have hstep : extractEntry fs z e cid
      = (fsSet (fsRemove (fsSet fs e cid) e) (renameDst z e) cid, renameDst z e) := by
    unfold extractEntry
    rw [if_neg h1, if_pos hset]
  refine ⟨by rw [hstep], ?_, ?_, extractEntry_path_no_slash fs z e cid⟩
  · rw [hstep]
    exact fsLookup_fsSet_self _ _ _
  · intro p hp
    have hpe : p ≠ e := fun hh => hp (hh ▸ h4)
    have hpr : p ≠ renameDst z e := fun hh => hp (hh ▸ h3)
    rw [hstep]
    calc fsLookup (fsSet (fsRemove (fsSet fs e cid) e) (renameDst z e) cid, renameDst z e).1 p
        = fsLookup (fsRemove (fsSet fs e cid) e) p :=
          fsLookup_fsSet_ne _ _ _ _ hpr
    _ = fsLookup (fsSet fs e cid) p := fsLookup_fsRemove_ne _ _ _ hpe
    _ = fsLookup fs p := fsLookup_fsSet_ne _ _ _ _ hpe

/-- C5 witness: scratch already holds `a.LOG` (content 0); extracting the entry
`d/a.LOG` (content 1) of `z.zip` lands at `a_z.zip.LOG` and leaves the old
`a.LOG` intact. -/
theorem c5_internal_collision_renames_witness :
    (extractEntry [((("a.LOG").toList), 0)] (("z.zip").toList) (("d/a.LOG").toList) 1).2
      = renameDst (("z.zip").toList) (("d/a.LOG").toList)
    ∧ fsLookup (extractEntry [((("a.LOG").toList), 0)] (("z.zip").toList)
          (("d/a.LOG").toList) 1).1
        (renameDst (("z.zip").toList) (("d/a.LOG").toList)) = some 1
    ∧ fsLookup (extractEntry [((("a.LOG").toList), 0)] (("z.zip").toList)
          (("d/a.LOG").toList) 1).1 (("a.LOG").toList) = some 0 :=
  ⟨(c5_internal_collision_renames [((("a.LOG").toList), 0)] (("z.zip").toList)
      (("d/a.LOG").toList) 1 (by decide) (by decide) (by decide) (by decide)).1,
   (c5_internal_collision_renames [((("a.LOG").toList), 0)] (("z.zip").toList)
      (("d/a.LOG").toList) 1 (by decide) (by decide) (by decide) (by decide)).2.1,
   ((c5_internal_collision_renames [((("a.LOG").toList), 0)] (("z.zip").toList)
      (("d/a.LOG").toList) 1 (by decide) (by decide) (by decide) (by decide)).2.2.1
        (("a.LOG").toList) (by decide)).trans (by decide)⟩

theorem vehLe_total (a b : VehicleRec) : vehLe a b ∨ vehLe b a := by
  rcases lt_trichotomy (!a.hasMismatch) (!b.hasMismatch) with h | h | h
  · exact Or.inl (Or.inl h)
  · rcases le_total (lowerL a.nameDisplay) (lowerL b.nameDisplay) with hl | hl
    · exact Or.inl (Or.inr ⟨h, hl⟩)
    · exact Or.inr (Or.inr ⟨h.symm, hl⟩)
  · exact Or.inr (Or.inl h)

theorem vehLe_trans (a b c : VehicleRec) (hab : vehLe a b) (hbc : vehLe b c) :
    vehLe a c := by
  rcases hab with h1 | ⟨h1, h1b⟩ <;> rcases hbc with h2 | ⟨h2, h2b⟩
  · exact Or.inl (lt_trans h1 h2)
  · exact Or.inl (lt_of_lt_of_eq h1 h2)
  · exact Or.inl (lt_of_eq_of_lt h1 h2)
  · exact Or.inr ⟨h1.trans h2, le_trans h1b h2b⟩

/-- C3 counterexample: the summary built from the spec's own sample line
`("V1_log.LOG", 3, "Protocols: X mismatch Y")` contains a single record keyed
`"unknown"` — no record keyed `"v1"` exists, because the base name `V1_log.LOG`
does not fit `([A-Za-z0-9]+)_\d{8}_T` and the line carries no configuration or
`_BEV3` hint, so the vehicle heuristic ends at `"Unknown"`. -/
theorem c3_no_v1_record :
    (buildVehicles [sampleLine]).map Prod.fst = [("unknown").toList]
    ∧ ¬ (("v1").toList ∈ (buildVehicles [sampleLine]).map Prod.fst) := by
  constructor
  · decide
  · decide

/-- C3 (amended): the sample line produces exactly one record, keyed
`"unknown"` (displayed `"Unknown"`), with `has_mismatch = true`; in the
summary's sort relation that record strictly precedes every record whose
mismatch flag is false, and the rendered vehicle list is sorted by that
relation. -/
theorem c3_unknown_mismatch_first :
    buildVehicles [sampleLine] = [(("unknown").toList, sampleRec)]
    ∧ sampleRec.hasMismatch = true
    ∧ (∀ w : VehicleRec, w.hasMismatch = false → vehLe sampleRec w ∧ ¬ vehLe w sampleRec)
    ∧ (∀ lines : List (Str × Nat × Str), (sorted_vehicles lines).Sorted vehLe) := by
  refine ⟨by decide, rfl, ?_, ?_⟩
  · intro w hw
    constructor
    · refine Or.inl ?_
      rw [hw]
      decide
    · intro hcon
      rcases hcon with h | ⟨h, _⟩
      · rw [hw] at h
        exact absurd h (by decide)
      · rw [hw] at h
        exact absurd h (by decide)
  · intro lines
    haveI : IsTotal VehicleRec vehLe := ⟨vehLe_total⟩
    haveI : IsTrans VehicleRec vehLe := ⟨vehLe_trans⟩
    simp only [sorted_vehicles]
    exact List.sorted_insertionSort vehLe _

/-- C3 witness: the sample record strictly precedes a concrete record without
mismatch. -/
theorem c3_unknown_mismatch_first_witness :
    vehLe sampleRec ⟨("A").toList, [], [], false, []⟩
    ∧ ¬ vehLe ⟨("A").toList, [], [], false, []⟩ sampleRec :=
  c3_unknown_mismatch_first.2.2.1 ⟨("A").toList, [], [], false, []⟩ rfl

/-- C4 counterexample: requested identities `{"a", "A"}` with no identity
producing data yield a no-data list with two entries — both case variants are
listed, because the Python `set` deduplicates exact strings only, not
case-insensitively as the claim states. -/
theorem c4_case_variants_not_merged :
    (serials_without_logs [("a").toList, ("A").toList] []).length = 2
    ∧ ("a").toList ∈ serials_without_logs [("a").toList, ("A").toList] []
    ∧ ("A").toList ∈ serials_without_logs [("a").toList, ("A").toList] [] := by
  refine ⟨by decide, by decide, by decide⟩

/-- C4 (amended): the no-data list contains exactly the requested identities
(trimmed, empties dropped) whose lower-cased form matches no identity that
produced data; it holds no exact duplicate (deduplication is by exact string,
so distinct case variants each stay); it is sorted by the lower-cased key; and
for requested identities `{"A", "B"}` where only `"A"` produced matches it is
exactly `["B"]`. -/
theorem c4_no_data_list :
    (∀ (all w : List Str) (s : Str),
      s ∈ serials_without_logs all w ↔
        (s ∈ cleanedSerials all ∧ lowerL s ∉ (cleanedSerials w).map lowerL))
    ∧ (∀ all w : List Str, (serials_without_logs all w).Nodup)
    ∧ (∀ all w : List Str,
        (serials_without_logs all w).Sorted (fun a b => lowerL a ≤ lowerL b))
    ∧ serials_without_logs [("A").toList, ("B").toList] [("A").toList]
        = [("B").toList] := by
  refine ⟨?_, ?_, ?_, by decide⟩
  · intro all w s
    simp [serials_without_logs, List.mem_insertionSort, List.mem_dedup,
      List.mem_filter]
  · intro all w
    exact ((List.perm_insertionSort _ _).nodup_iff).mpr (List.nodup_dedup _)
  · intro all w
    haveI : IsTotal Str (fun a b => lowerL a ≤ lowerL b) := ⟨fun a b => le_total _ _⟩
    haveI : IsTrans Str (fun a b => lowerL a ≤ lowerL b) :=
      ⟨fun a b c h1 h2 => le_trans h1 h2⟩
    exact List.sorted_insertionSort _ _
